import Mathlib

/-!
Verification development for the react-native-unarchive extraction engine.

The definitions below are a shallow embedding of the native extraction
engine of the repository:

* `isPathAllowed`, `isSafeEntryPath`, `atomicMoveOrFallback`, `stageLoop`,
  `unarchiveBody`, `unarchive`, `enumFiles` embed
  `android/src/main/java/com/unarchive/UnarchiveModule.kt` (the hardened
  coordinator, lines 52-455);
* `iosUnarchive` embeds the dispatcher `unarchive` of `ios/Unarchive.mm`
  (lines 12-78);
* `isPathAllowedSpec` is the only definition written from the
  specification's words (directory-prefix sandbox check) for comparison
  with the source's `isPathAllowed`.

Filesystem state is modelled as a finite list of directories and a finite
list of (file path, byte length) pairs, with paths as canonical segment
lists.  Decoder behaviour (7-Zip-JBinding), I/O failures and cancellation
polls are inputs of the model (`Item`, `MoveEnv`, `Env`).
-/

namespace Unarchive

/-! ### Path segments and canonicalization -/

abbrev Path := List String

/-- Split a path string at '/' characters (the segment view that
`File`/`Path` operations use on the JVM).  Structural recursion over the
character list so that concrete runs evaluate in the kernel. -/
def splitSegsAux : List Char → List Char → List String
  | [], cur => [String.mk cur.reverse]
  | c :: cs, cur =>
    if c = '/' then String.mk cur.reverse :: splitSegsAux cs []
    else splitSegsAux cs (c :: cur)

def splitSegs (s : String) : List String :=
  splitSegsAux s.data []

/-- Join segments with '/' separators. -/
def joinSegs : List String → String
  | [] => ""
  | [s] => s
  | s :: rest => s ++ "/" ++ joinSegs rest

/-- One step of path normalization: empty segments and "." are dropped,
".." removes the previous segment (at the root it is simply discarded,
as `File.getCanonicalFile` does).  Symlinks are outside the model. -/
def canonStep (acc : List String) (s : String) : List String :=
  if s = "" then acc
  else if s = "." then acc
  else if s = ".." then acc.dropLast
  else acc ++ [s]

/-- Canonicalize a segment list (resolution of `.`/`..`/empty segments
performed by `File.getCanonicalFile` / `canonicalPath`). -/
def canonSegs (l : List String) : List String :=
  l.foldl canonStep []

/-- Canonical absolute path string of a raw path string
(`File(path).canonicalFile.path`). -/
def canonStr (s : String) : String :=
  "/" ++ joinSegs (canonSegs (splitSegs s))

/-- Canonical segment view of a raw path string. -/
def pathSegs (s : String) : Path :=
  canonSegs (splitSegs s)

/-- `s` starts with `pre` as a plain string (Kotlin `String.startsWith`). -/
def strStarts (s pre : String) : Bool :=
  pre.data.isPrefixOf s.data

/-- A segment list with no empty, `.` or `..` components. -/
def cleanSegs (l : List String) : Bool :=
  l.all (fun s => !(s == "") && !(s == ".") && !(s == ".."))

/-! ### Sandbox validation and entry sanitization (UnarchiveModule.kt) -/

/-- `isPathAllowed` (UnarchiveModule.kt lines 52-69): canonicalize the
candidate and test whether it *starts with* (string prefix) one of the
canonicalized allowed roots. -/
def isPathAllowed (allowedRoots : List String) (path : String) : Bool :=
  allowedRoots.any (fun root => strStarts (canonStr path) (canonStr root))

/-- The validator as the specification words it (spec §4.2): the
canonicalized candidate must *equal* a canonicalized allowed root or have
it as a *directory* prefix (root followed by a separator). -/
def isPathAllowedSpec (allowedRoots : List String) (path : String) : Bool :=
  allowedRoots.any (fun root =>
    canonStr path == canonStr root ||
      strStarts (canonStr path) (canonStr root ++ "/"))

/-- `isSafeEntryPath` (UnarchiveModule.kt lines 72-84): join the declared
entry path to the staging directory, canonicalize, and require the result
to start with the staging directory followed by a separator
(`tempDirCanonical + File.separator`); on canonical segment lists that is
exactly "proper segment-list prefix".  Returns the resolved destination
on success, `none` for an unsafe entry. -/
def isSafeEntryPath (entryPath : String) (tempDir : Path) : Option Path :=
  let dest := canonSegs (tempDir ++ splitSegs entryPath)
  if tempDir.isPrefixOf dest && tempDir.length < dest.length then some dest
  else none

/-! ### Filesystem model -/

/-- A filesystem: the set of existing directories and the existing regular
files with their byte lengths. -/
structure Fs where
  dirs : List Path
  files : List (Path × Nat)
deriving DecidableEq, Repr

def Fs.isDir (fs : Fs) (p : Path) : Bool :=
  fs.dirs.any (fun d => d == p)

def Fs.isFile (fs : Fs) (p : Path) : Bool :=
  fs.files.any (fun e => e.1 == p)

def Fs.existsPath (fs : Fs) (p : Path) : Bool :=
  fs.isDir p || fs.isFile p

def Fs.fileSize (fs : Fs) (p : Path) : Option Nat :=
  (fs.files.find? (fun e => e.1 == p)).map (fun e => e.2)

/-- The nonempty ancestors of a path, shortest first, ending with the path
itself. -/
def prefixesOf (p : Path) : List Path :=
  (List.range p.length).map (fun i => p.take (i + 1))

/-- `File.mkdirs()`: create the directory and any missing ancestors. -/
def Fs.mkdirs (fs : Fs) (p : Path) : Fs :=
  { fs with
    dirs := fs.dirs ++ (prefixesOf p).filter (fun d => !(fs.isDir d)) }

/-- Create / truncate a regular file with the given length
(`FileOutputStream` write of all chunks of an entry). -/
def Fs.writeFile (fs : Fs) (p : Path) (n : Nat) : Fs :=
  { fs with files := (p, n) :: fs.files.filter (fun e => !(e.1 == p)) }

/-- `File.delete()` of a regular file. -/
def Fs.deleteFile (fs : Fs) (p : Path) : Fs :=
  { fs with files := fs.files.filter (fun e => !(e.1 == p)) }

/-- `File.deleteRecursively()`: remove the path and everything below it. -/
def Fs.deleteRec (fs : Fs) (p : Path) : Fs :=
  { dirs := fs.dirs.filter (fun d => !(p.isPrefixOf d)),
    files := fs.files.filter (fun e => !(p.isPrefixOf e.1)) }

/-- Replace the leading `src` of a path by `dst` (effect of a directory
rename on each path below it). -/
def movePath (src dst q : Path) : Path :=
  if src.isPrefixOf q then dst ++ q.drop src.length else q

/-- Rename the subtree rooted at `src` to `dst` (plain `renameTo`, callers
guarantee `dst` is absent). -/
def Fs.rename (fs : Fs) (src dst : Path) : Fs :=
  { dirs := fs.dirs.map (movePath src dst),
    files := fs.files.map (fun e => (movePath src dst e.1, e.2)) }

/-- `File.delete()` on a directory: succeeds only when it is empty. -/
def Fs.deleteDirIfEmpty (fs : Fs) (p : Path) : Fs :=
  if fs.isDir p
      && !(fs.dirs.any (fun d => p.isPrefixOf d && p.length < d.length))
      && !(fs.files.any (fun e => p.isPrefixOf e.1)) then
    { fs with dirs := fs.dirs.filter (fun d => !(d == p)) }
  else fs

/-! ### Result payload -/

/-- One entry of the result payload (`ExtractedFileInfo` /
`FileInfo`). -/
structure FileInfo where
  path : Path
  name : String
  relativePath : String
  size : Nat
deriving DecidableEq, Repr

/-- Build a `FileInfo` for a file below `base` (enumerateFiles body,
UnarchiveModule.kt lines 370-377): absolute path, base filename,
`relativize(base, file)` and filesystem byte length. -/
def mkInfo (base p : Path) (n : Nat) : FileInfo :=
  { path := p
    name := p.getLastD ""
    relativePath := joinSegs (p.drop base.length)
    size := n }

/-- `enumerateFiles` (UnarchiveModule.kt lines 362-385): every regular
file strictly below `base` in walk order. -/
def enumFiles (fs : Fs) (base : Path) : List FileInfo :=
  (fs.files.filter
      (fun e => base.isPrefixOf e.1 && base.length < e.1.length)).map
    (fun e => mkInfo base e.1 e.2)

/-! ### Decoder / environment inputs -/

/-- One archive member as the 7-Zip-JBinding simple interface reports it,
together with the behaviour the decoder exhibits for it in this run:
`ok` is whether `extractSlow` returns `ExtractOperationResult.OK`,
`written` is the byte count the chunk callback materialized (`none` if no
chunk arrived so the output stream was never opened), `threw` is whether
a host exception escaped the extraction of this entry. -/
structure Item where
  isFolder : Bool
  path : Option String
  ok : Bool
  written : Option Nat
  threw : Bool
deriving Repr

/-- Behaviour of the move primitives in `atomicMoveOrFallback`:
`atomicOk` is whether `Files.move(ATOMIC_MOVE)` succeeds, the two rename
flags are the outcomes of the fallback `renameTo` calls, `backupId` the
random suffix of the backup name. -/
structure MoveEnv where
  atomicOk : Bool
  renameDestOk : Bool
  renameSrcOk : Bool
  backupId : String
deriving Repr

/-- Ambient behaviour of one `unarchive` invocation: archive existence,
`tempDir.mkdirs()` outcome, `SevenZip.openInArchive` outcome, the archive
items, the cancellation flag at each successive `isActive` poll
(`activeAt k` is the k-th poll; `true` means still active) and the move
environment.  `tempName` is the random staging directory name. -/
structure Env where
  archiveExists : Bool
  mkdirsOk : Bool
  openOk : Bool
  items : List Item
  activeAt : Nat → Bool
  tempName : String
  moveEnv : MoveEnv

/-! ### Outcomes -/

/-- Terminal outcome of an `unarchive` call (the promise settlement). -/
inductive Outcome where
  | busy
  | invalidPath
  | fileNotFound
  | cancelled
  | tempDirFailed
  | entryInvalid (p : String)
  | extractionError
  | moveFailed
  | success (files : List FileInfo)
deriving DecidableEq, Repr

/-! ### Atomic move with fallback (UnarchiveModule.kt lines 87-140) -/

/-- `atomicMoveOrFallback`: try `Files.move(ATOMIC_MOVE, REPLACE_EXISTING)`
first; otherwise rename an existing destination aside to a backup, rename
the source into place (restoring the backup if that fails), and delete
the backup on success. -/
def atomicMoveOrFallback (menv : MoveEnv) (source dest : Path) (fs : Fs) :
    Bool × Fs :=
  if menv.atomicOk then
    (true, (fs.deleteRec dest).rename source dest)
  else if fs.existsPath dest then
    if menv.renameDestOk then
      let backup := dest.dropLast ++
        [dest.getLastD "" ++ ".backup." ++ menv.backupId]
      let fs1 := fs.rename dest backup
      if menv.renameSrcOk then
        (true, (fs1.rename source dest).deleteDirIfEmpty backup)
      else
        (false, fs1.rename backup dest)
    else (false, fs)
  else if menv.renameSrcOk then (true, fs.rename source dest)
  else (false, fs)

/-! ### Staging loop (UnarchiveModule.kt lines 235-325) -/

inductive StageRes where
  | aborted (out : Outcome) (fs : Fs)
  | finished (fs : Fs) (staged : List FileInfo)

def StageRes.resFs : StageRes → Fs
  | .aborted _ fs => fs
  | .finished fs _ => fs

/-- The per-item extraction loop.  `i` is the running item index (folders
included, as `withIndex` counts them).  Checkpoint `2 + i` is the
cooperative cancellation poll at the top of iteration `i`. -/
def stageLoop (env : Env) (tempDir : Path) :
    List Item → Nat → Fs → List FileInfo → StageRes
  | [], _, fs, acc => .finished fs acc
  | item :: rest, i, fs, acc =>
    if !(env.activeAt (2 + i)) then .aborted .cancelled fs
    else if item.isFolder then stageLoop env tempDir rest (i + 1) fs acc
    else
      let itemPath := item.path.getD ("unknown_file_" ++ toString i)
      match isSafeEntryPath itemPath tempDir with
      | none => .aborted (.entryInvalid itemPath) fs
      | some outFile =>
        let fs1 := fs.mkdirs outFile.dropLast
        let fs2 :=
          if fs1.isFile outFile then fs1.deleteFile outFile else fs1
        let fs3 :=
          match item.written with
          | some n => fs2.writeFile outFile n
          | none => fs2
        if item.threw then
          let fs4 :=
            if fs3.isFile outFile then fs3.deleteFile outFile else fs3
          stageLoop env tempDir rest (i + 1) fs4 acc
        else if item.ok && fs3.isFile outFile
            && !((fs3.fileSize outFile).getD 0 == 0) then
          stageLoop env tempDir rest (i + 1) fs3
            (acc ++ [mkInfo tempDir outFile ((fs3.fileSize outFile).getD 0)])
        else
          let fs4 :=
            if fs3.isFile outFile && ((fs3.fileSize outFile).getD 0 == 0)
            then fs3.deleteFile outFile else fs3
          stageLoop env tempDir rest (i + 1) fs4 acc

/-! ### Coordinator body and entry point (UnarchiveModule.kt 142-455) -/

/-- Body of the extraction coroutine (the `try` block, lines 192-432).
Returns the outcome, the filesystem and whether the staging path was
assigned (line 208), which controls the `finally` cleanup. -/
def unarchiveBody (env : Env) (outputDir tempDir : Path) (fs : Fs) :
    Outcome × Fs × Bool :=
  if !env.archiveExists then (.fileNotFound, fs, false)
  else if !(env.activeAt 0) then (.cancelled, fs, false)
  else if !env.mkdirsOk then (.tempDirFailed, fs, true)
  else
    let fs1 := fs.mkdirs tempDir
    if !env.openOk then (.extractionError, fs1, true)
    else if !(env.activeAt 1) then (.cancelled, fs1, true)
    else
      match stageLoop env tempDir env.items 0 fs1 [] with
      | .aborted out fs2 => (out, fs2, true)
      | .finished fs2 _staged =>
        if !(env.activeAt (2 + env.items.length)) then (.cancelled, fs2, true)
        else
          let fs3 :=
            if fs2.existsPath outputDir then fs2.deleteRec outputDir else fs2
          let mv := atomicMoveOrFallback env.moveEnv tempDir outputDir fs3
          if mv.1 then (.success (enumFiles mv.2 outputDir), mv.2, true)
          else (.moveFailed, mv.2, true)

/-- The staging directory path of a request: a uniquely named sibling of
the output directory (line 208). -/
def tempDirOf (outputPath : String) (env : Env) : Path :=
  (pathSegs outputPath).dropLast ++ [env.tempName]

/-- `unarchive` (UnarchiveModule.kt lines 142-455): busy admission,
sandbox validation, extraction body, and the unconditional `finally`
cleanup (staging removal and busy release).  Returns the outcome, the
final filesystem and the final busy flag. -/
def unarchive (allowedRoots : List String) (archivePath outputPath : String)
    (env : Env) (busy : Bool) (fs : Fs) : Outcome × Fs × Bool :=
  if busy then (.busy, fs, true)
  else if !(isPathAllowed allowedRoots outputPath) then
    (.invalidPath, fs, false)
  else
    let outputDir := pathSegs outputPath
    let tempDir := tempDirOf outputPath env
    let r := unarchiveBody env outputDir tempDir fs
    let fs2 :=
      if r.2.2 && r.2.1.existsPath tempDir then r.2.1.deleteRec tempDir
      else r.2.1
    (r.1, fs2, false)

/-- A non-folder archive item whose *declared* path fails the zip-slip
sanitization against staging directory `tempDir` (the entries that claim
2 is about; an absent declared path is replaced by a synthesized safe
name, so it is not unsafe). -/
def unsafeItem (tempDir : Path) (it : Item) : Bool :=
  !it.isFolder &&
    (match it.path with
      | some s => (isSafeEntryPath s tempDir).isNone
      | none => false)

/-! ### iOS dispatcher (ios/Unarchive.mm lines 12-78) -/

inductive IosOutcome where
  | fileNotFound
  | directoryError
  | dispatchedCBR
  | dispatchedCBZ
  | unsupportedFormat
deriving DecidableEq, Repr

/-- Ambient behaviour of one iOS `unarchive` call: archive existence, the
outcome of `createDirectoryAtPath`, and the lowercased path extension of
the archive. -/
structure IosEnv where
  archiveExists : Bool
  createDirOk : Bool
  ext : String
deriving Repr

/-- The four recognized archive extensions (Unarchive.mm lines 53-62). -/
def supportedExt (e : String) : Bool :=
  e == "cbr" || e == "rar" || e == "cbz" || e == "zip"

/-- The iOS `unarchive` dispatcher (Unarchive.mm lines 12-78): existence
check, unconditional creation of the output directory, then extension
dispatch; unknown extensions are rejected with `UNSUPPORTED_FORMAT`
after the directory was created. -/
def iosUnarchive (env : IosEnv) (outputPath : String) (fs : Fs) :
    IosOutcome × Fs :=
  if !env.archiveExists then (.fileNotFound, fs)
  else if !env.createDirOk then (.directoryError, fs)
  else
    let fs1 := fs.mkdirs (pathSegs outputPath)
    if env.ext == "cbr" || env.ext == "rar" then (.dispatchedCBR, fs1)
    else if env.ext == "cbz" || env.ext == "zip" then (.dispatchedCBZ, fs1)
    else (.unsupportedFormat, fs1)

/-! ### Boolean prefix lemmas -/

theorem bpre_iff {a b : Path} : a.isPrefixOf b = true ↔ a <+: b :=
  List.isPrefixOf_iff_prefix

theorem bpre_self (l : Path) : l.isPrefixOf l = true :=
  bpre_iff.mpr (List.prefix_refl l)

theorem bpre_app (l r : Path) : l.isPrefixOf (l ++ r) = true :=
  bpre_iff.mpr (List.prefix_append l r)

theorem bpre_trans {a b c : Path} (h1 : a.isPrefixOf b = true)
    (h2 : b.isPrefixOf c = true) : a.isPrefixOf c = true :=
  bpre_iff.mpr ((bpre_iff.mp h1).trans (bpre_iff.mp h2))

theorem bpre_len {a b : Path} (h : a.isPrefixOf b = true) :
    a.length ≤ b.length :=
  (bpre_iff.mp h).length_le

theorem bpre_drop_eq {a b : Path} (h : a.isPrefixOf b = true) :
    b = a ++ b.drop a.length := by
  obtain ⟨t, rfl⟩ := bpre_iff.mp h
  simp

theorem bpre_eq_of_len {a b : Path} (h : a.isPrefixOf b = true)
    (hl : b.length ≤ a.length) : a = b :=
  (bpre_iff.mp h).eq_of_length_le hl

theorem bpre_comp {a b c : Path} (h1 : a.isPrefixOf c = true)
    (h2 : b.isPrefixOf c = true) :
    a.isPrefixOf b = true ∨ b.isPrefixOf a = true := by
  rcases List.prefix_or_prefix_of_prefix (bpre_iff.mp h1) (bpre_iff.mp h2)
    with h | h
  · exact Or.inl (bpre_iff.mpr h)
  · exact Or.inr (bpre_iff.mpr h)

theorem bpre_take (p : Path) (n : Nat) : (p.take n).isPrefixOf p = true :=
  bpre_iff.mpr (List.take_prefix n p)

theorem bpre_dropLast (p : Path) : p.dropLast.isPrefixOf p = true :=
  bpre_iff.mpr (List.dropLast_prefix p)

theorem bpre_snoc_ne {par : Path} {x y : String} (h : x ≠ y) :
    (par ++ [x]).isPrefixOf (par ++ [y]) = false := by
  cases hb : (par ++ [x]).isPrefixOf (par ++ [y]) with
  | false => rfl
  | true =>
    have heq := bpre_eq_of_len hb (by simp)
    exact absurd (List.append_inj_right heq rfl) (by simp [h])

/-! ### List helper lemmas for the filesystem model -/

theorem find?_filter_keep {l : List (Path × Nat)} {q : Path}
    {P : Path × Nat → Bool} (hP : ∀ n, P (q, n) = true) :
    (l.filter P).find? (fun e => e.1 == q) = l.find? (fun e => e.1 == q) := by
  induction l with
  | nil => rfl
  | cons e t ih =>
    by_cases he : e.1 = q
    · have hPe : P e = true := by
        have : e = (q, e.2) := by
          cases e; simp_all
        rw [this]; exact hP e.2
      simp [List.filter_cons, hPe, List.find?, he]
    · have hne : (e.1 == q) = false := beq_eq_false_iff_ne.mpr he
      by_cases hPe : P e = true
      · simp [List.filter_cons, hPe, List.find?, hne, ih]
      · simp only [Bool.not_eq_true] at hPe
        simp [List.filter_cons, hPe, List.find?, hne, ih]

theorem find?_filter_out {l : List (Path × Nat)} {q : Path}
    {P : Path × Nat → Bool} (hP : ∀ n, P (q, n) = false) :
    (l.filter P).find? (fun e => e.1 == q) = none := by
  induction l with
  | nil => rfl
  | cons e t ih =>
    by_cases he : e.1 = q
    · have hPe : P e = false := by
        have : e = (q, e.2) := by cases e; simp_all
        rw [this]; exact hP e.2
      simp [List.filter_cons, hPe, ih]
    · have hne : (e.1 == q) = false := beq_eq_false_iff_ne.mpr he
      by_cases hPe : P e = true
      · simp [List.filter_cons, hPe, List.find?, hne, ih]
      · simp only [Bool.not_eq_true] at hPe
        simp [List.filter_cons, hPe, ih]

theorem any_filter_keep {l : List Path} {d : Path} {P : Path → Bool}
    (hP : P d = true) :
    (l.filter P).any (fun x => x == d) = l.any (fun x => x == d) := by
  induction l with
  | nil => rfl
  | cons x t ih =>
    by_cases hx : x = d
    · subst hx; simp [List.filter_cons, hP, List.any_cons, ih]
    · have hne : (x == d) = false := beq_eq_false_iff_ne.mpr hx
      by_cases hPx : P x = true
      · simp [List.filter_cons, hPx, List.any_cons, hne, ih]
      · simp only [Bool.not_eq_true] at hPx
        simp [List.filter_cons, hPx, List.any_cons, hne, ih]

theorem any_filter_out {l : List Path} {d : Path} {P : Path → Bool}
    (hP : P d = false) :
    (l.filter P).any (fun x => x == d) = false := by
  induction l with
  | nil => rfl
  | cons x t ih =>
    by_cases hx : x = d
    · subst hx; simp [List.filter_cons, hP, ih]
    · have hne : (x == d) = false := beq_eq_false_iff_ne.mpr hx
      by_cases hPx : P x = true
      · simp [List.filter_cons, hPx, List.any_cons, hne, ih]
      · simp only [Bool.not_eq_true] at hPx
        simp [List.filter_cons, hPx, ih]

theorem anyPair_filter_out {l : List (Path × Nat)} {q : Path}
    {P : Path × Nat → Bool} (hP : ∀ n, P (q, n) = false) :
    (l.filter P).any (fun e => e.1 == q) = false := by
  induction l with
  | nil => rfl
  | cons e t ih =>
    by_cases he : e.1 = q
    · have hPe : P e = false := by
        have : e = (q, e.2) := by cases e; simp_all
        rw [this]; exact hP e.2
      simp [List.filter_cons, hPe, ih]
    · have hne : (e.1 == q) = false := beq_eq_false_iff_ne.mpr he
      by_cases hPe : P e = true
      · simp [List.filter_cons, hPe, List.any_cons, hne, ih]
      · simp only [Bool.not_eq_true] at hPe
        simp [List.filter_cons, hPe, ih]

/-! ### Filesystem operation lemmas -/

theorem mkdirs_files (fs : Fs) (p : Path) : (fs.mkdirs p).files = fs.files :=
  rfl

theorem mkdirs_fileSize (fs : Fs) (p q : Path) :
    (fs.mkdirs p).fileSize q = fs.fileSize q := rfl

theorem mkdirs_isFile (fs : Fs) (p q : Path) :
    (fs.mkdirs p).isFile q = fs.isFile q := rfl

theorem writeFile_dirs (fs : Fs) (p : Path) (n : Nat) :
    (fs.writeFile p n).dirs = fs.dirs := rfl

theorem writeFile_isDir (fs : Fs) (p : Path) (n : Nat) (d : Path) :
    (fs.writeFile p n).isDir d = fs.isDir d := rfl

theorem deleteFile_dirs (fs : Fs) (p : Path) :
    (fs.deleteFile p).dirs = fs.dirs := rfl

theorem deleteFile_isDir (fs : Fs) (p d : Path) :
    (fs.deleteFile p).isDir d = fs.isDir d := rfl

theorem writeFile_fileSize_self (fs : Fs) (p : Path) (n : Nat) :
    (fs.writeFile p n).fileSize p = some n := by
  simp [Fs.writeFile, Fs.fileSize, List.find?]

theorem writeFile_fileSize_ne (fs : Fs) {p q : Path} (n : Nat) (h : q ≠ p) :
    (fs.writeFile p n).fileSize q = fs.fileSize q := by
  have hne : (p == q) = false := beq_eq_false_iff_ne.mpr (Ne.symm h)
  simp only [Fs.writeFile, Fs.fileSize, List.find?, hne]
  rw [find?_filter_keep (fun n => by
    simp [beq_eq_false_iff_ne.mpr h])]

theorem writeFile_isFile_self (fs : Fs) (p : Path) (n : Nat) :
    (fs.writeFile p n).isFile p = true := by
  simp [Fs.writeFile, Fs.isFile]

theorem deleteFile_fileSize_self (fs : Fs) (p : Path) :
    (fs.deleteFile p).fileSize p = none := by
  simp only [Fs.deleteFile, Fs.fileSize]
  rw [find?_filter_out (fun n => by simp)]
  rfl

theorem deleteFile_isFile_self (fs : Fs) (p : Path) :
    (fs.deleteFile p).isFile p = false := by
  simp only [Fs.deleteFile, Fs.isFile]
  exact anyPair_filter_out (fun n => by simp)

theorem deleteFile_fileSize_ne (fs : Fs) {p q : Path} (h : q ≠ p) :
    (fs.deleteFile p).fileSize q = fs.fileSize q := by
  simp only [Fs.deleteFile, Fs.fileSize]
  rw [find?_filter_keep (fun n => by
    simp [beq_eq_false_iff_ne.mpr h])]

theorem deleteRec_fileSize_outside (fs : Fs) {t q : Path}
    (h : t.isPrefixOf q = false) :
    (fs.deleteRec t).fileSize q = fs.fileSize q := by
  simp only [Fs.deleteRec, Fs.fileSize]
  rw [find?_filter_keep (fun n => by simp [h])]

theorem deleteRec_isDir_outside (fs : Fs) {t d : Path}
    (h : t.isPrefixOf d = false) :
    (fs.deleteRec t).isDir d = fs.isDir d := by
  simp only [Fs.deleteRec, Fs.isDir]
  exact any_filter_keep (by simp [h])

theorem deleteRec_existsPath_self (fs : Fs) (t : Path) :
    (fs.deleteRec t).existsPath t = false := by
  simp only [Fs.deleteRec, Fs.existsPath, Fs.isDir, Fs.isFile]
  rw [any_filter_out (by simp [bpre_self]),
    anyPair_filter_out (fun n => by simp [bpre_self])]
  rfl

theorem prefixesOf_mem_bpre {p x : Path} (hx : x ∈ prefixesOf p) :
    x.isPrefixOf p = true := by
  simp only [prefixesOf, List.mem_map, List.mem_range] at hx
  obtain ⟨i, _, rfl⟩ := hx
  exact bpre_take p (i + 1)

theorem isDir_mkdirs_stable (fs : Fs) {p d : Path}
    (h : d.isPrefixOf p = false) :
    (fs.mkdirs p).isDir d = fs.isDir d := by
  simp only [Fs.mkdirs, Fs.isDir, List.any_append]
  have hz : ∀ P : Path → Bool,
      ((prefixesOf p).filter P).any (fun x => x == d) = false := by
    intro P
    rw [List.any_eq_false]
    intro x hx
    have hx' : x ∈ prefixesOf p := List.mem_of_mem_filter hx
    intro hcontra
    have : x = d := by simpa using hcontra
    subst this
    exact absurd (prefixesOf_mem_bpre hx') (by simp [h])
  rw [hz]
  simp

theorem isDir_mkdirs_self (fs : Fs) {p : Path} (h : p ≠ []) :
    (fs.mkdirs p).isDir p = true := by
  have hlen : 0 < p.length := List.length_pos.mpr h
  have hp : p ∈ prefixesOf p := by
    simp only [prefixesOf, List.mem_map, List.mem_range]
    refine ⟨p.length - 1, by omega, ?_⟩
    rw [Nat.sub_add_cancel hlen]
    exact List.take_length p
  by_cases hd : fs.isDir p = true
  · simp only [Fs.mkdirs, Fs.isDir, List.any_append]
    simp only [Fs.isDir] at hd
    rw [hd]; rfl
  · simp only [Bool.not_eq_true] at hd
    simp only [Fs.mkdirs, Fs.isDir, List.any_append]
    have hmem : ((prefixesOf p).filter
        (fun x => !(fs.dirs.any fun y => y == x))).any
          (fun x => x == p) = true := by
      rw [List.any_eq_true]
      refine ⟨p, List.mem_filter.mpr ⟨hp, ?_⟩, by simp⟩
      simp only [Fs.isDir] at hd
      simp [hd]
    rw [hmem]
    simp

theorem rename_existsPath_src (fs : Fs) {src dst : Path}
    (h : dst.isPrefixOf src = false) :
    (fs.rename src dst).existsPath src = false := by
  have key : ∀ q : Path, (movePath src dst q == src) = false := by
    intro q
    rw [beq_eq_false_iff_ne]
    unfold movePath
    split
    · intro hc
      have : dst.isPrefixOf src = true := by
        rw [← hc]; exact bpre_app dst _
      simp [this] at h
    · next hq =>
      intro hc
      subst hc
      simp [bpre_self] at hq
  simp only [Fs.rename, Fs.existsPath, Fs.isDir, Fs.isFile, List.any_map]
  have h1 : fs.dirs.any ((fun d => d == src) ∘ movePath src dst) = false := by
    rw [List.any_eq_false]
    intro x _
    simp [Function.comp, key x]
  have h2 : fs.files.any
      ((fun e => e.1 == src) ∘ fun e => (movePath src dst e.1, e.2))
        = false := by
    rw [List.any_eq_false]
    intro x _
    simp [Function.comp, key x.1]
  rw [h1, h2]
  rfl

/-! ### Sanitizer inversion -/

theorem isSafe_some {s : String} {t d : Path}
    (h : isSafeEntryPath s t = some d) :
    t.isPrefixOf d = true ∧ t.length < d.length := by
  simp only [isSafeEntryPath] at h
  split at h
  · next hc =>
    simp only [Bool.and_eq_true, decide_eq_true_eq] at hc
    injection h with h'
    subst h'
    exact hc
  · cases h

/-! ### Staging loop invariants -/

theorem stageLoop_fileSize_outside (env : Env) (t : Path) {q : Path}
    (hq : t.isPrefixOf q = false) :
    ∀ (items : List Item) (i : Nat) (fs : Fs) (acc : List FileInfo),
      (stageLoop env t items i fs acc).resFs.fileSize q = fs.fileSize q := by
  intro items
  induction items with
  | nil => intro i fs acc; rfl
  | cons item rest ih =>
    intro i fs acc
    rw [stageLoop]
    by_cases ha : env.activeAt (2 + i) = true
    · simp only [ha, Bool.not_true, Bool.false_eq_true, if_false]
      by_cases hf : item.isFolder = true
      · simp only [hf, if_true]
        exact ih (i + 1) fs acc
      · simp only [Bool.not_eq_true] at hf
        simp only [hf, Bool.false_eq_true, if_false]
        cases hs : isSafeEntryPath (item.path.getD
            ("unknown_file_" ++ toString i)) t with
        | none => rfl
        | some outFile =>
          have hne : q ≠ outFile := by
            intro hqe
            subst hqe
            exact absurd (isSafe_some hs).1 (by simp [hq])
          -- every filesystem built inside this iteration agrees with fs at q
          have pres : ∀ g : Fs, g.fileSize q = fs.fileSize q →
              ∀ g' : Fs,
                (g' = g.mkdirs outFile.dropLast ∨ g' = g.deleteFile outFile ∨
                  ∃ n, g' = g.writeFile outFile n) →
                g'.fileSize q = fs.fileSize q := by
            rintro g hg g' (rfl | rfl | ⟨n, rfl⟩)
            · rw [mkdirs_fileSize]; exact hg
            · rw [deleteFile_fileSize_ne g hne]; exact hg
            · rw [writeFile_fileSize_ne g n hne]; exact hg
          simp only []
          have h1 : (fs.mkdirs outFile.dropLast).fileSize q = fs.fileSize q :=
            pres fs rfl _ (Or.inl rfl)
          set fs1 := fs.mkdirs outFile.dropLast with hfs1
          have h2 : (if fs1.isFile outFile then fs1.deleteFile outFile
              else fs1).fileSize q = fs.fileSize q := by
            split
            · exact pres fs1 h1 _ (Or.inr (Or.inl rfl))
            · exact h1
          set fs2 := if fs1.isFile outFile then fs1.deleteFile outFile
            else fs1 with hfs2
          have h3 : (match item.written with
              | some n => fs2.writeFile outFile n
              | none => fs2).fileSize q = fs.fileSize q := by
            cases item.written with
            | some n => exact pres fs2 h2 _ (Or.inr (Or.inr ⟨n, rfl⟩))
            | none => exact h2
          set fs3 := match item.written with
            | some n => fs2.writeFile outFile n
            | none => fs2 with hfs3
          by_cases ht : item.threw = true
          · simp only [ht, if_true]
            have h4 : (if fs3.isFile outFile then fs3.deleteFile outFile
                else fs3).fileSize q = fs.fileSize q := by
              split
              · exact pres fs3 h3 _ (Or.inr (Or.inl rfl))
              · exact h3
            rw [ih]
            exact h4
          · simp only [Bool.not_eq_true] at ht
            simp only [ht, Bool.false_eq_true, if_false]
            split
            · rw [ih]
              exact h3
            · have h4 : (if fs3.isFile outFile
                  && ((fs3.fileSize outFile).getD 0 == 0)
                  then fs3.deleteFile outFile else fs3).fileSize q
                    = fs.fileSize q := by
                split
                · exact pres fs3 h3 _ (Or.inr (Or.inl rfl))
                · exact h3
              rw [ih]
              exact h4
    · simp only [Bool.not_eq_true] at ha
      simp only [ha, Bool.not_false, if_true]
      rfl

theorem stageLoop_isDir_at (env : Env) {t od : Path}
    (h1 : od.isPrefixOf t = false) (h2 : t.isPrefixOf od = false)
    {d : Path} (hd : od.isPrefixOf d = true) :
    ∀ (items : List Item) (i : Nat) (fs : Fs) (acc : List FileInfo),
      (stageLoop env t items i fs acc).resFs.isDir d = fs.isDir d := by
  intro items
  induction items with
  | nil => intro i fs acc; rfl
  | cons item rest ih =>
    intro i fs acc
    rw [stageLoop]
    by_cases ha : env.activeAt (2 + i) = true
    · simp only [ha, Bool.not_true, Bool.false_eq_true, if_false]
      by_cases hf : item.isFolder = true
      · simp only [hf, if_true]
        exact ih (i + 1) fs acc
      · simp only [Bool.not_eq_true] at hf
        simp only [hf, Bool.false_eq_true, if_false]
        cases hs : isSafeEntryPath (item.path.getD
            ("unknown_file_" ++ toString i)) t with
        | none => rfl
        | some outFile =>
          have hpre : t.isPrefixOf outFile = true := (isSafe_some hs).1
          -- d cannot be an ancestor of the created parent chain
          have hdp : d.isPrefixOf outFile.dropLast = false := by
            cases hc : d.isPrefixOf outFile.dropLast with
            | false => rfl
            | true =>
              have hdo : d.isPrefixOf outFile = true :=
                bpre_trans hc (bpre_dropLast outFile)
              rcases bpre_comp hdo hpre with hdt | htd
              · exact absurd (bpre_trans hd hdt) (by simp [h1])
              · rcases bpre_comp hd htd with hot | hto
                · exact absurd hot (by simp [h1])
                · exact absurd hto (by simp [h2])
          simp only []
          have hstep : (fs.mkdirs outFile.dropLast).isDir d = fs.isDir d :=
            isDir_mkdirs_stable fs hdp
          set fs1 := fs.mkdirs outFile.dropLast with hfs1
          have h2' : (if fs1.isFile outFile then fs1.deleteFile outFile
              else fs1).isDir d = fs.isDir d := by
            split
            · rw [deleteFile_isDir]; exact hstep
            · exact hstep
          set fs2 := if fs1.isFile outFile then fs1.deleteFile outFile
            else fs1 with hfs2
          have h3 : (match item.written with
              | some n => fs2.writeFile outFile n
              | none => fs2).isDir d = fs.isDir d := by
            cases item.written with
            | some n => rw [writeFile_isDir]; exact h2'
            | none => exact h2'
          set fs3 := match item.written with
            | some n => fs2.writeFile outFile n
            | none => fs2 with hfs3
          by_cases ht : item.threw = true
          · simp only [ht, if_true]
            have h4 : (if fs3.isFile outFile then fs3.deleteFile outFile
                else fs3).isDir d = fs.isDir d := by
              split
              · rw [deleteFile_isDir]; exact h3
              · exact h3
            rw [ih]
            exact h4
          · simp only [Bool.not_eq_true] at ht
            simp only [ht, Bool.false_eq_true, if_false]
            split
            · rw [ih]
              exact h3
            · have h4 : (if fs3.isFile outFile
                  && ((fs3.fileSize outFile).getD 0 == 0)
                  then fs3.deleteFile outFile else fs3).isDir d
                    = fs.isDir d := by
                split
                · rw [deleteFile_isDir]; exact h3
                · exact h3
              rw [ih]
              exact h4
    · simp only [Bool.not_eq_true] at ha
      simp only [ha, Bool.not_false, if_true]
      rfl

theorem stageLoop_abort_shape (env : Env) (t : Path) :
    ∀ (items : List Item) (i : Nat) (fs : Fs) (acc : List FileInfo)
      (out : Outcome) (fs' : Fs),
      stageLoop env t items i fs acc = .aborted out fs' →
      out = .cancelled ∨ ∃ p, out = .entryInvalid p := by
  intro items
  induction items with
  | nil =>
    intro i fs acc out fs' h
    cases h
  | cons item rest ih =>
    intro i fs acc out fs' h
    rw [stageLoop] at h
    by_cases ha : env.activeAt (2 + i) = true
    · simp only [ha, Bool.not_true, Bool.false_eq_true, if_false] at h
      by_cases hf : item.isFolder = true
      · simp only [hf, if_true] at h
        exact ih _ _ _ _ _ h
      · simp only [Bool.not_eq_true] at hf
        simp only [hf, Bool.false_eq_true, if_false] at h
        cases hs : isSafeEntryPath (item.path.getD
            ("unknown_file_" ++ toString i)) t with
        | none =>
          rw [hs] at h
          injection h with h1 _
          exact Or.inr ⟨_, h1.symm⟩
        | some outFile =>
          rw [hs] at h
          simp only [] at h
          set fs1 := fs.mkdirs outFile.dropLast with hfs1
          set fs2 := if fs1.isFile outFile then fs1.deleteFile outFile
            else fs1 with hfs2
          set fs3 := (match item.written with
            | some n => fs2.writeFile outFile n
            | none => fs2) with hfs3
          by_cases ht : item.threw = true
          · simp only [ht, if_true] at h
            exact ih _ _ _ _ _ h
          · simp only [Bool.not_eq_true] at ht
            simp only [ht, Bool.false_eq_true, if_false] at h
            cases hc : (item.ok && fs3.isFile outFile
                && !((fs3.fileSize outFile).getD 0 == 0)) with
            | true =>
              simp only [hc, if_true] at h
              exact ih _ _ _ _ _ h
            | false =>
              simp only [hc, Bool.false_eq_true, if_false] at h
              exact ih _ _ _ _ _ h
    · simp only [Bool.not_eq_true] at ha
      simp only [ha, Bool.not_false, if_true] at h
      injection h with h1 _
      exact Or.inl h1.symm

theorem stageLoop_unsafe_aborts (env : Env) (t : Path)
    (hact : ∀ k, env.activeAt k = true) :
    ∀ (items : List Item) (i : Nat) (fs : Fs) (acc : List FileInfo),
      items.any (unsafeItem t) = true →
      ∃ p fs', stageLoop env t items i fs acc
          = .aborted (.entryInvalid p) fs' ∧ isSafeEntryPath p t = none := by
  intro items
  induction items with
  | nil =>
    intro i fs acc h
    cases h
  | cons item rest ih =>
    intro i fs acc h
    rw [stageLoop]
    simp only [hact (2 + i), Bool.not_true, Bool.false_eq_true, if_false]
    by_cases hf : item.isFolder = true
    · have hrest : rest.any (unsafeItem t) = true := by
        have hu : unsafeItem t item = false := by
          simp [unsafeItem, hf]
        simpa [List.any_cons, hu] using h
      simp only [hf, if_true]
      exact ih _ _ _ hrest
    · simp only [Bool.not_eq_true] at hf
      simp only [hf, Bool.false_eq_true, if_false]
      cases hs : isSafeEntryPath (item.path.getD
          ("unknown_file_" ++ toString i)) t with
      | none => exact ⟨_, fs, rfl, hs⟩
      | some outFile =>
        have hrest : rest.any (unsafeItem t) = true := by
          have hu : unsafeItem t item = false := by
            cases hp : item.path with
            | none => simp [unsafeItem, hf, hp]
            | some s =>
              have : isSafeEntryPath s t = some outFile := by
                simpa [hp] using hs
              simp [unsafeItem, hf, hp, this]
          simpa [List.any_cons, hu] using h
        simp only []
        set fs1 := fs.mkdirs outFile.dropLast with hfs1
        set fs2 := if fs1.isFile outFile then fs1.deleteFile outFile
          else fs1 with hfs2
        set fs3 := (match item.written with
          | some n => fs2.writeFile outFile n
          | none => fs2) with hfs3
        by_cases ht : item.threw = true
        · simp only [ht, if_true]
          exact ih _ _ _ hrest
        · simp only [Bool.not_eq_true] at ht
          simp only [ht, Bool.false_eq_true, if_false]
          cases hc : (item.ok && fs3.isFile outFile
              && !((fs3.fileSize outFile).getD 0 == 0)) with
          | true =>
            simp only [hc, if_true]
            exact ih _ _ _ hrest
          | false =>
            simp only [hc, Bool.false_eq_true, if_false]
            exact ih _ _ _ hrest

/-! ### Coordinator branch lemmas -/

theorem unarchiveBody_tm_false {env : Env} {od t : Path} {fs : Fs}
    (h : (unarchiveBody env od t fs).2.2 = false) :
    (unarchiveBody env od t fs).2.1 = fs := by
  unfold unarchiveBody at h ⊢
  by_cases hA : env.archiveExists = true
  · simp only [hA, Bool.not_true, Bool.false_eq_true, if_false] at h ⊢
    by_cases h0 : env.activeAt 0 = true
    · simp only [h0, Bool.not_true, Bool.false_eq_true, if_false] at h ⊢
      by_cases hM : env.mkdirsOk = true
      · simp only [hM, Bool.not_true, Bool.false_eq_true, if_false] at h ⊢
        by_cases hO : env.openOk = true
        · simp only [hO, Bool.not_true, Bool.false_eq_true, if_false] at h ⊢
          by_cases h1 : env.activeAt 1 = true
          · simp only [h1, Bool.not_true, Bool.false_eq_true, if_false]
              at h ⊢
            cases hsl : stageLoop env t env.items 0 (fs.mkdirs t) [] with
            | aborted out fs2 =>
              rw [hsl] at h
              simp at h
            | finished fs2 staged =>
              rw [hsl] at h
              by_cases h2 : env.activeAt (2 + env.items.length) = true
              · simp only [h2, Bool.not_true, Bool.false_eq_true, if_false]
                  at h
                split at h <;> split at h <;> simp at h
              · simp only [Bool.not_eq_true] at h2
                simp only [h2, Bool.not_false, if_true] at h
                simp at h
          · simp only [Bool.not_eq_true] at h1
            simp only [h1, Bool.not_false, if_true] at h
            simp at h
        · simp only [Bool.not_eq_true] at hO
          simp only [hO, Bool.not_false, if_true] at h
          simp at h
      · simp only [Bool.not_eq_true] at hM
        simp only [hM, Bool.not_false, if_true] at h
        simp at h
    · simp only [Bool.not_eq_true] at h0
      simp only [h0, Bool.not_false, if_true]
  · simp only [Bool.not_eq_true] at hA
    simp only [hA, Bool.not_false, if_true]

theorem unarchiveBody_ne_busy (env : Env) (od t : Path) (fs : Fs) :
    (unarchiveBody env od t fs).1 ≠ .busy := by
  unfold unarchiveBody
  by_cases hA : env.archiveExists = true
  · simp only [hA, Bool.not_true, Bool.false_eq_true, if_false]
    by_cases h0 : env.activeAt 0 = true
    · simp only [h0, Bool.not_true, Bool.false_eq_true, if_false]
      by_cases hM : env.mkdirsOk = true
      · simp only [hM, Bool.not_true, Bool.false_eq_true, if_false]
        by_cases hO : env.openOk = true
        · simp only [hO, Bool.not_true, Bool.false_eq_true, if_false]
          by_cases h1 : env.activeAt 1 = true
          · simp only [h1, Bool.not_true, Bool.false_eq_true, if_false]
            cases hsl : stageLoop env t env.items 0 (fs.mkdirs t) [] with
            | aborted out fs2 =>
              rcases stageLoop_abort_shape env t _ _ _ _ _ _ hsl with
                hcan | ⟨p, hp⟩
              · subst hcan; simp
              · subst hp; simp
            | finished fs2 staged =>
              by_cases h2 : env.activeAt (2 + env.items.length) = true
              · simp only [h2, Bool.not_true, Bool.false_eq_true, if_false]
                split <;> split <;> simp
              · simp only [Bool.not_eq_true] at h2
                simp only [h2, Bool.not_false, if_true]
                simp
          · simp only [Bool.not_eq_true] at h1
            simp only [h1, Bool.not_false, if_true]
            simp
        · simp only [Bool.not_eq_true] at hO
          simp only [hO, Bool.not_false, if_true]
          simp
      · simp only [Bool.not_eq_true] at hM
        simp only [hM, Bool.not_false, if_true]
        simp
    · simp only [Bool.not_eq_true] at h0
      simp only [h0, Bool.not_false, if_true]
      simp
  · simp only [Bool.not_eq_true] at hA
    simp only [hA, Bool.not_false, if_true]
    simp

theorem unarchive_final_not_busy (roots : List String)
    (a o : String) (env : Env) (fs : Fs) :
    (unarchive roots a o env false fs).2.2 = false := by
  unfold unarchive
  simp only [Bool.false_eq_true, if_false]
  by_cases hP : isPathAllowed roots o = true
  · simp only [hP, Bool.not_true, Bool.false_eq_true, if_false]
  · simp only [Bool.not_eq_true] at hP
    simp only [hP, Bool.not_false, if_true]

theorem unarchive_outcome_not_busy (roots : List String)
    (a o : String) (env : Env) (fs : Fs) :
    (unarchive roots a o env false fs).1 ≠ .busy := by
  unfold unarchive
  simp only [Bool.false_eq_true, if_false]
  by_cases hP : isPathAllowed roots o = true
  · simp only [hP, Bool.not_true, Bool.false_eq_true, if_false]
    exact unarchiveBody_ne_busy env _ _ fs
  · simp only [Bool.not_eq_true] at hP
    simp only [hP, Bool.not_false, if_true]
    simp

theorem unarchive_staging_gone (roots : List String) (a o : String)
    (env : Env) (fs : Fs)
    (h : fs.existsPath (tempDirOf o env) = false) :
    ((unarchive roots a o env false fs).2.1.existsPath
      (tempDirOf o env)) = false := by
  unfold unarchive
  simp only [Bool.false_eq_true, if_false]
  by_cases hP : isPathAllowed roots o = true
  · simp only [hP, Bool.not_true, Bool.false_eq_true, if_false]
    by_cases htm : (unarchiveBody env (pathSegs o) (tempDirOf o env)
        fs).2.2 = true
    · by_cases hex : ((unarchiveBody env (pathSegs o) (tempDirOf o env)
          fs).2.1.existsPath (tempDirOf o env)) = true
      · simp only [htm, hex, Bool.and_self, if_true]
        exact deleteRec_existsPath_self _ _
      · simp only [Bool.not_eq_true] at hex
        simp only [htm, hex, Bool.and_false, Bool.false_eq_true, if_false]
    · simp only [Bool.not_eq_true] at htm
      have hfs := unarchiveBody_tm_false htm
      simp only [htm, Bool.false_and, Bool.false_eq_true, if_false]
      rw [hfs]
      exact h
  · simp only [Bool.not_eq_true] at hP
    simp only [hP, Bool.not_false, if_true]
    exact h

/-! ### Clean path lemmas -/

theorem canonStep_clean {s : String} (h0 : (s == "") = false)
    (h1 : (s == ".") = false) (h2 : (s == "..") = false) (acc : List String) :
    canonStep acc s = acc ++ [s] := by
  unfold canonStep
  rw [if_neg (by simpa using h0), if_neg (by simpa using h1),
    if_neg (by simpa using h2)]

theorem foldl_canonStep_clean :
    ∀ {l : List String}, cleanSegs l = true →
      ∀ acc : List String, l.foldl canonStep acc = acc ++ l := by
  intro l
  induction l with
  | nil => intro _ acc; simp
  | cons s rest ih =>
    intro h acc
    simp only [cleanSegs, List.all_cons, Bool.and_eq_true] at h
    obtain ⟨hs, hrest⟩ := h
    simp only [Bool.and_eq_true, Bool.not_eq_true'] at hs
    rw [List.foldl_cons, canonStep_clean hs.1.1 hs.1.2 hs.2,
      ih hrest (acc ++ [s])]
    simp

theorem canonSegs_clean {l : List String} (h : cleanSegs l = true) :
    canonSegs l = l := by
  unfold canonSegs
  rw [foldl_canonStep_clean h []]
  simp

theorem isSafe_unknown {t : Path} {nm : String}
    (hclean : cleanSegs t = true) (hsplit : splitSegs nm = [nm])
    (h0 : (nm == "") = false) (h1 : (nm == ".") = false)
    (h2 : (nm == "..") = false) :
    isSafeEntryPath nm t = some (t ++ [nm]) := by
  have hcl : cleanSegs (t ++ [nm]) = true := by
    simp only [cleanSegs, List.all_append, Bool.and_eq_true] at hclean ⊢
    exact ⟨hclean, by simp [h0, h1, h2]⟩
  simp only [isSafeEntryPath, hsplit, canonSegs_clean hcl]
  rw [if_pos]
  simp only [Bool.and_eq_true, decide_eq_true_eq]
  exact ⟨bpre_app t [nm], by simp⟩

/-! ### Last-segment and drop lemmas -/

theorem joinSegs_one (s : String) : joinSegs [s] = s := by
  simp [joinSegs]

theorem getLastD_append_right {a r : Path} (h : r ≠ []) :
    (a ++ r).getLastD "" = r.getLastD "" := by
  rw [List.getLastD_eq_getLast?, List.getLastD_eq_getLast?,
    List.getLast?_append_of_ne_nil a h]

/-! ### Commit-step shape lemmas -/

theorem condDelete_existsPath (fs : Fs) (p : Path) :
    (if fs.existsPath p = true then fs.deleteRec p else fs).existsPath p
      = false := by
  split
  · exact deleteRec_existsPath_self fs p
  · next hcond => simpa using hcond

theorem amove_success_rename {menv : MoveEnv} {src dst : Path} {fs : Fs}
    (hd : fs.existsPath dst = false)
    (hok : (atomicMoveOrFallback menv src dst fs).1 = true) :
    ∃ base : Fs,
      (atomicMoveOrFallback menv src dst fs).2 = base.rename src dst := by
  unfold atomicMoveOrFallback at hok ⊢
  by_cases hat : menv.atomicOk = true
  · simp only [hat, if_true]
    exact ⟨fs.deleteRec dst, rfl⟩
  · simp only [Bool.not_eq_true] at hat
    simp only [hat, Bool.false_eq_true, if_false, hd] at hok ⊢
    by_cases hr : menv.renameSrcOk = true
    · simp only [hr, if_true]
      exact ⟨fs, rfl⟩
    · simp only [Bool.not_eq_true] at hr
      simp only [hr, Bool.false_eq_true, if_false] at hok

/-! ### Success inversion for the coordinator -/

theorem unarchive_success_inv {roots : List String} {a o : String}
    {env : Env} {fs : Fs} {files : List FileInfo}
    (h : (unarchive roots a o env false fs).1 = .success files) :
    ∃ fs4 : Fs,
      files = enumFiles fs4 (pathSegs o)
      ∧ (unarchive roots a o env false fs).2.1 =
          (if fs4.existsPath (tempDirOf o env) = true
            then fs4.deleteRec (tempDirOf o env) else fs4)
      ∧ ∃ base : Fs,
          fs4 = base.rename (tempDirOf o env) (pathSegs o) := by
  unfold unarchive at h ⊢
  simp only [Bool.false_eq_true, if_false] at h ⊢
  by_cases hP : isPathAllowed roots o = true
  · simp only [hP, Bool.not_true, Bool.false_eq_true, if_false] at h ⊢
    unfold unarchiveBody at h ⊢
    by_cases hA : env.archiveExists = true
    · simp only [hA, Bool.not_true, Bool.false_eq_true, if_false] at h ⊢
      by_cases h0 : env.activeAt 0 = true
      · simp only [h0, Bool.not_true, Bool.false_eq_true, if_false] at h ⊢
        by_cases hM : env.mkdirsOk = true
        · simp only [hM, Bool.not_true, Bool.false_eq_true, if_false] at h ⊢
          by_cases hO : env.openOk = true
          · simp only [hO, Bool.not_true, Bool.false_eq_true, if_false]
              at h ⊢
            by_cases h1 : env.activeAt 1 = true
            · simp only [h1, Bool.not_true, Bool.false_eq_true, if_false]
                at h ⊢
              cases hsl : stageLoop env (tempDirOf o env) env.items 0
                  (fs.mkdirs (tempDirOf o env)) [] with
              | aborted out fs2 =>
                rw [hsl] at h
                rcases stageLoop_abort_shape env _ _ _ _ _ _ _ hsl with
                  hcan | ⟨p, hp⟩
                · subst hcan; simp at h
                · subst hp; simp at h
              | finished fs2 staged =>
                rw [hsl] at h
                by_cases h2 : env.activeAt (2 + env.items.length) = true
                · simp only [h2, Bool.not_true, Bool.false_eq_true,
                    if_false] at h ⊢
                  by_cases hmv : (atomicMoveOrFallback env.moveEnv
                      (tempDirOf o env) (pathSegs o)
                      (if fs2.existsPath (pathSegs o) = true
                        then fs2.deleteRec (pathSegs o) else fs2)).1 = true
                  · simp only [hmv, if_true] at h ⊢
                    simp only [Outcome.success.injEq] at h
                    refine ⟨_, h.symm, rfl, ?_⟩
                    exact amove_success_rename
                      (condDelete_existsPath fs2 (pathSegs o)) hmv
                  · simp only [Bool.not_eq_true] at hmv
                    simp only [hmv, Bool.false_eq_true, if_false] at h
                    simp at h
                · simp only [Bool.not_eq_true] at h2
                  simp only [h2, Bool.not_false, if_true] at h
                  simp at h
            · simp only [Bool.not_eq_true] at h1
              simp only [h1, Bool.not_false, if_true] at h
              simp at h
          · simp only [Bool.not_eq_true] at hO
            simp only [hO, Bool.not_false, if_true] at h
            simp at h
        · simp only [Bool.not_eq_true] at hM
          simp only [hM, Bool.not_false, if_true] at h
          simp at h
      · simp only [Bool.not_eq_true] at h0
        simp only [h0, Bool.not_false, if_true] at h
        simp at h
    · simp only [Bool.not_eq_true] at hA
      simp only [hA, Bool.not_false, if_true] at h
      simp at h
  · simp only [Bool.not_eq_true] at hP
    simp only [hP, Bool.not_false, if_true] at h
    simp at h

/-! ### Claim theorems -/

/-- C1 (code bug).  The claim says a failed commit leaves the destination
equal to its pre-call contents, never absent.  The code deletes the
destination recursively (UnarchiveModule.kt line 335) *before* calling
`atomicMoveOrFallback`, so when both the atomic move and the fallback
rename fail, the destination — which existed with a 7-byte file before
the call — is gone afterwards, and the backup-restore path of
`atomicMoveOrFallback` is unreachable.  This theorem evaluates the engine
at that failing input. -/
theorem commit_failure_destroys_destination :
    unarchive ["/data"] "/arc.zip" "/data/out"
        ⟨true, true, true, [], fun _ => true, "tmp1",
          ⟨false, true, false, "b"⟩⟩
        false ⟨[["data"], ["data", "out"]], [(["data", "out", "old.txt"], 7)]⟩
      = (.moveFailed, ⟨[["data"]], []⟩, false)
    ∧ Fs.existsPath
        ⟨[["data"], ["data", "out"]], [(["data", "out", "old.txt"], 7)]⟩
        ["data", "out"] = true
    ∧ Fs.fileSize
        ⟨[["data"], ["data", "out"]], [(["data", "out", "old.txt"], 7)]⟩
        ["data", "out", "old.txt"] = some 7
    ∧ Fs.existsPath ⟨[["data"]], []⟩ ["data", "out"] = false := by
  exact ⟨by decide, by decide, by decide, by decide⟩

/-- C9 (confirmed).  The admission checks are ordered busy-first: while
another extraction holds the flag, the call yields `BUSY` whatever the
output path is (the result does not depend on the environment or the
filesystem, so no I/O happens); the invalid-path rejection is only
produced when the busy transition succeeded, and it releases the flag
(final flag `false`) before rejecting. -/
theorem busy_rejection_precedes_path_validation (roots : List String)
    (a o : String) (env : Env) (fs : Fs)
    (h : isPathAllowed roots o = false) :
    unarchive roots a o env true fs = (.busy, fs, true)
    ∧ unarchive roots a o env false fs = (.invalidPath, fs, false) := by
  constructor
  · rfl
  · unfold unarchive
    simp [h]

/-- Witness for C9 at a concrete out-of-sandbox path. -/
theorem busy_rejection_precedes_path_validation_witness :
    isPathAllowed ["/data"] "/etc/target" = false
    ∧ (unarchive ["/data"] "/a.zip" "/etc/target"
          ⟨true, true, true, [], fun _ => true, "t", ⟨true, true, true, "b"⟩⟩
          true ⟨[], []⟩ = (.busy, ⟨[], []⟩, true)
        ∧ unarchive ["/data"] "/a.zip" "/etc/target"
          ⟨true, true, true, [], fun _ => true, "t", ⟨true, true, true, "b"⟩⟩
          false ⟨[], []⟩ = (.invalidPath, ⟨[], []⟩, false)) :=
  ⟨by decide,
    busy_rejection_precedes_path_validation ["/data"] "/a.zip" "/etc/target"
      ⟨true, true, true, [], fun _ => true, "t", ⟨true, true, true, "b"⟩⟩
      ⟨[], []⟩ (by decide)⟩

/-- C4 (confirmed).  While an extraction is in flight (busy flag set), a
second call returns `BUSY` with the filesystem untouched, whatever the
environment (so no archive I/O is performed); every admitted request
releases the flag on each terminal outcome, and a subsequent call using
the released flag is never rejected with `BUSY`. -/
theorem single_flight_admission (roots : List String) (a a2 o o2 : String)
    (env env2 : Env) (fs fs2 : Fs) :
    unarchive roots a o env true fs = (.busy, fs, true)
    ∧ (unarchive roots a o env false fs).2.2 = false
    ∧ (unarchive roots a2 o2 env2
        ((unarchive roots a o env false fs).2.2) fs2).1 ≠ .busy := by
  refine ⟨rfl, unarchive_final_not_busy roots a o env fs, ?_⟩
  rw [unarchive_final_not_busy roots a o env fs]
  exact unarchive_outcome_not_busy roots a2 o2 env2 fs2

/-- C5 (confirmed).  On every exit path of an admitted request the
`finally` block releases the busy flag and removes any leftover staging
directory: whatever the environment (success, any failure class, or
cancellation at any poll), the final busy flag is `false` and the staging
directory is absent from the final filesystem, provided it did not exist
before the call (its name is freshly randomized). -/
theorem terminal_cleanup (roots : List String) (a o : String)
    (env : Env) (fs : Fs)
    (h : fs.existsPath (tempDirOf o env) = false) :
    (unarchive roots a o env false fs).2.2 = false
    ∧ (unarchive roots a o env false fs).2.1.existsPath (tempDirOf o env)
        = false :=
  ⟨unarchive_final_not_busy roots a o env fs,
    unarchive_staging_gone roots a o env fs h⟩

/-- Witness for C5 on a concrete cancelled run (cancellation at the first
poll). -/
theorem terminal_cleanup_witness :
    Fs.existsPath ⟨[["data"]], []⟩
      (tempDirOf "/data/out"
        ⟨true, true, true, [], fun _ => false, "tmp1",
          ⟨true, true, true, "b"⟩⟩) = false
    ∧ ((unarchive ["/data"] "/a.zip" "/data/out"
          ⟨true, true, true, [], fun _ => false, "tmp1",
            ⟨true, true, true, "b"⟩⟩ false ⟨[["data"]], []⟩).2.2 = false
        ∧ (unarchive ["/data"] "/a.zip" "/data/out"
          ⟨true, true, true, [], fun _ => false, "tmp1",
            ⟨true, true, true, "b"⟩⟩ false ⟨[["data"]], []⟩).2.1.existsPath
            (tempDirOf "/data/out"
              ⟨true, true, true, [], fun _ => false, "tmp1",
                ⟨true, true, true, "b"⟩⟩) = false) :=
  ⟨by decide,
    terminal_cleanup ["/data"] "/a.zip" "/data/out"
      ⟨true, true, true, [], fun _ => false, "tmp1", ⟨true, true, true, "b"⟩⟩
      ⟨[["data"]], []⟩ (by decide)⟩

/-- C3 counterexample.  `isPathAllowed` uses a plain string prefix, not a
directory prefix: the sibling path `/data/user/0/com.app/filesEvil` is
accepted although the allowed root `/data/user/0/com.app/files` is not a
directory prefix of it (the spec-worded validator rejects it), and an
`unarchive` call to that path is admitted — it fails later with
`FILE_NOT_FOUND`, not with the invalid-path error the claim requires. -/
theorem sandbox_not_directory_prefix_cex :
    isPathAllowed ["/data/user/0/com.app/files"]
      "/data/user/0/com.app/filesEvil" = true
    ∧ isPathAllowedSpec ["/data/user/0/com.app/files"]
      "/data/user/0/com.app/filesEvil" = false
    ∧ (unarchive ["/data/user/0/com.app/files"] "/arc.zip"
        "/data/user/0/com.app/filesEvil"
        ⟨false, true, true, [], fun _ => true, "t", ⟨true, true, true, "b"⟩⟩
        false ⟨[], []⟩).1 = .fileNotFound := by
  exact ⟨by decide, by decide, by decide⟩

/-- C3 (amended).  The validator accepts a path iff its canonicalized form
has one of the canonicalized allowed roots as a *string* prefix; for
every path it rejects, `unarchive` fails with the invalid-path error,
returns the filesystem unchanged (no temporary directory, no mutation)
and releases the busy flag. -/
theorem sandbox_rejection_no_mutation (roots : List String)
    (a o p : String) (env : Env) (fs : Fs)
    (h : isPathAllowed roots o = false) :
    unarchive roots a o env false fs = (.invalidPath, fs, false)
    ∧ (isPathAllowed roots p = true ↔
        ∃ r ∈ roots, strStarts (canonStr p) (canonStr r) = true) := by
  constructor
  · unfold unarchive
    simp [h]
  · simp [isPathAllowed, List.any_eq_true]

/-- Witness for C3 at the concrete rejected path `/etc/target`. -/
theorem sandbox_rejection_no_mutation_witness :
    isPathAllowed ["/data"] "/etc/target" = false
    ∧ (unarchive ["/data"] "/a.zip" "/etc/target"
          ⟨true, true, true, [], fun _ => true, "t", ⟨true, true, true, "b"⟩⟩
          false ⟨[["data"]], []⟩ = (.invalidPath, ⟨[["data"]], []⟩, false)
        ∧ (isPathAllowed ["/data"] "/data/sub" = true ↔
            ∃ r ∈ ["/data"],
              strStarts (canonStr "/data/sub") (canonStr r) = true)) :=
  ⟨by decide,
    sandbox_rejection_no_mutation ["/data"] "/a.zip" "/etc/target"
      "/data/sub"
      ⟨true, true, true, [], fun _ => true, "t", ⟨true, true, true, "b"⟩⟩
      ⟨[["data"]], []⟩ (by decide)⟩

/-- C7 counterexample.  For an existing archive with the unrecognized
extension `7z`, the iOS dispatcher creates the output directory
(`createDirectoryAtPath`, Unarchive.mm line 34) *before* the
`UNSUPPORTED_FORMAT` rejection and leaves it behind: the claim's "no
directory is created before the rejection" fails. -/
theorem unsupported_format_creates_directory_cex :
    supportedExt "7z" = false
    ∧ Fs.isDir ⟨[["data"]], []⟩ ["data", "out"] = false
    ∧ iosUnarchive ⟨true, true, "7z"⟩ "/data/out" ⟨[["data"]], []⟩
        = (.unsupportedFormat, ⟨[["data"], ["data", "out"]], []⟩)
    ∧ Fs.isDir ⟨[["data"], ["data", "out"]], []⟩ ["data", "out"] = true := by
  exact ⟨by decide, by decide, by decide, by decide⟩

/-- C7 (amended).  `FILE_NOT_FOUND` is rejected before any filesystem
mutation on both platforms; `UNSUPPORTED_FORMAT`, however, is rejected by
the iOS dispatcher only after the output directory has been created with
intermediates, and that directory remains. -/
theorem precondition_error_partial_state (env : IosEnv) (o : String)
    (fs : Fs) (roots : List String) (a o2 : String) (env2 : Env)
    (fs2 : Fs) :
    (env.archiveExists = false → iosUnarchive env o fs = (.fileNotFound, fs))
    ∧ (env.archiveExists = true → env.createDirOk = true →
        supportedExt env.ext = false →
        iosUnarchive env o fs
          = (.unsupportedFormat, fs.mkdirs (pathSegs o)))
    ∧ (isPathAllowed roots o2 = true → env2.archiveExists = false →
        unarchive roots a o2 env2 false fs2
          = (.fileNotFound, fs2, false)) := by
  refine ⟨?_, ?_, ?_⟩
  · intro h
    unfold iosUnarchive
    simp [h]
  · intro h1 h2 h3
    simp only [supportedExt, Bool.or_eq_false_iff] at h3
    unfold iosUnarchive
    simp [h1, h2, h3.1.1.1, h3.1.1.2, h3.1.2, h3.2]
  · intro hP hA
    unfold unarchive unarchiveBody
    simp [hP, hA]

/-- Witness for C7: a missing archive on iOS, a `7z` archive on iOS, and
a missing archive on the Android engine. -/
theorem precondition_error_partial_state_witness :
    iosUnarchive ⟨false, true, "zip"⟩ "/data/out" ⟨[], []⟩
      = (.fileNotFound, ⟨[], []⟩)
    ∧ iosUnarchive ⟨true, true, "7z"⟩ "/data/out" ⟨[], []⟩
      = (.unsupportedFormat, Fs.mkdirs ⟨[], []⟩ (pathSegs "/data/out"))
    ∧ unarchive ["/data"] "/a.zip" "/data/out"
        ⟨false, true, true, [], fun _ => true, "t", ⟨true, true, true, "b"⟩⟩
        false ⟨[], []⟩ = (.fileNotFound, ⟨[], []⟩, false) :=
  ⟨(precondition_error_partial_state ⟨false, true, "zip"⟩ "/data/out"
      ⟨[], []⟩ ["/data"] "/a.zip" "/data/out"
      ⟨false, true, true, [], fun _ => true, "t", ⟨true, true, true, "b"⟩⟩
      ⟨[], []⟩).1 rfl,
   (precondition_error_partial_state ⟨true, true, "7z"⟩ "/data/out"
      ⟨[], []⟩ ["/data"] "/a.zip" "/data/out"
      ⟨false, true, true, [], fun _ => true, "t", ⟨true, true, true, "b"⟩⟩
      ⟨[], []⟩).2.1 rfl rfl (by decide),
   (precondition_error_partial_state ⟨true, true, "7z"⟩ "/data/out"
      ⟨[], []⟩ ["/data"] "/a.zip" "/data/out"
      ⟨false, true, true, [], fun _ => true, "t", ⟨true, true, true, "b"⟩⟩
      ⟨[], []⟩).2.2 (by decide) rfl⟩

/-- C2 counterexample.  An archive whose only entry is a *folder* with the
traversal path `../evil` does not abort the request: folder entries skip
sanitization entirely (UnarchiveModule.kt line 243 guards the check with
`!item.isFolder`), so the run succeeds instead of failing with the
entry-invalid error, although the declared path fails `isSafeEntryPath`. -/
theorem unsafe_folder_entry_skipped_cex :
    isSafeEntryPath "../evil"
      (tempDirOf "/data/out"
        ⟨true, true, true, [⟨true, some "../evil", true, none, false⟩],
          fun _ => true, "tmp1", ⟨true, true, true, "b"⟩⟩) = none
    ∧ (unarchive ["/data"] "/arc.zip" "/data/out"
        ⟨true, true, true, [⟨true, some "../evil", true, none, false⟩],
          fun _ => true, "tmp1", ⟨true, true, true, "b"⟩⟩
        false ⟨[["data"]], []⟩)
      = (.success [], ⟨[["data"], ["data", "out"]], []⟩, false) := by
  exact ⟨by decide, by decide⟩

/-- C8 counterexample.  A single entry whose extraction result is not OK
but which materialized 3 bytes is *not* deleted: the cleanup only removes
zero-byte files (UnarchiveModule.kt line 313), so the partial file stays
in staging, is committed, and even appears in the final enumerated
result. -/
theorem failed_entry_partial_kept_cex :
    (⟨false, some "a.bin", false, some 3, false⟩ : Item).ok = false
    ∧ (unarchive ["/data"] "/arc.zip" "/data/out"
        ⟨true, true, true, [⟨false, some "a.bin", false, some 3, false⟩],
          fun _ => true, "tmp1", ⟨true, true, true, "b"⟩⟩
        false ⟨[["data"]], []⟩)
      = (.success [⟨["data", "out", "a.bin"], "a.bin", "a.bin", 3⟩],
          ⟨[["data"], ["data", "out"]], [(["data", "out", "a.bin"], 3)]⟩,
          false) := by
  exact ⟨rfl, by decide⟩

/-- C2 (amended).  For every archive containing at least one *non-folder*
entry whose declared path fails sanitization against the staging root,
the whole request fails with the entry-invalid error for an unsafe path;
files outside the staging root (in particular everything under the
destination) are untouched, destination directories are untouched (the
commit step never runs), and the busy flag is released.  Unsafe *folder*
entries are skipped, as the counterexample shows. -/
theorem unsafe_file_entry_aborts (roots : List String) (a o : String)
    (env : Env) (fs : Fs)
    (hP : isPathAllowed roots o = true)
    (hA : env.archiveExists = true) (hM : env.mkdirsOk = true)
    (hO : env.openOk = true)
    (hact : ∀ k, env.activeAt k = true)
    (h1 : (pathSegs o).isPrefixOf (tempDirOf o env) = false)
    (h2 : (tempDirOf o env).isPrefixOf (pathSegs o) = false)
    (hU : env.items.any (unsafeItem (tempDirOf o env)) = true) :
    (∃ p, (unarchive roots a o env false fs).1 = .entryInvalid p
        ∧ isSafeEntryPath p (tempDirOf o env) = none)
    ∧ (∀ q : Path, (tempDirOf o env).isPrefixOf q = false →
        (unarchive roots a o env false fs).2.1.fileSize q = fs.fileSize q)
    ∧ (∀ d : Path, (pathSegs o).isPrefixOf d = true →
        (unarchive roots a o env false fs).2.1.isDir d = fs.isDir d)
    ∧ (unarchive roots a o env false fs).2.2 = false := by
  obtain ⟨p, fs', hsl, hnone⟩ := stageLoop_unsafe_aborts env
    (tempDirOf o env) hact env.items 0 (fs.mkdirs (tempDirOf o env)) [] hU
  have hbody : unarchiveBody env (pathSegs o) (tempDirOf o env) fs
      = (.entryInvalid p, fs', true) := by
    unfold unarchiveBody
    simp only [hA, hact 0, hM, hO, hact 1, Bool.not_true,
      Bool.false_eq_true, if_false]
    rw [hsl]
  have hru : unarchive roots a o env false fs
      = (.entryInvalid p,
          if fs'.existsPath (tempDirOf o env) = true
            then fs'.deleteRec (tempDirOf o env) else fs', false) := by
    unfold unarchive
    simp only [Bool.false_eq_true, if_false, hP, Bool.not_true]
    rw [hbody]
    simp
  refine ⟨⟨p, by rw [hru], hnone⟩, ?_, ?_, ?_⟩
  · intro q hq
    rw [hru]
    have hfs' : fs'.fileSize q = fs.fileSize q := by
      have hout := stageLoop_fileSize_outside env (tempDirOf o env) hq
        env.items 0 (fs.mkdirs (tempDirOf o env)) []
      rw [hsl] at hout
      simpa [StageRes.resFs, mkdirs_fileSize] using hout
    simp only []
    split
    · rw [deleteRec_fileSize_outside _ hq]
      exact hfs'
    · exact hfs'
  · intro d hd
    rw [hru]
    have hdt : d.isPrefixOf (tempDirOf o env) = false := by
      cases hc : d.isPrefixOf (tempDirOf o env) with
      | false => rfl
      | true => exact absurd (bpre_trans hd hc) (by simp [h1])
    have htd : (tempDirOf o env).isPrefixOf d = false := by
      cases hc : (tempDirOf o env).isPrefixOf d with
      | false => rfl
      | true =>
        rcases bpre_comp hd hc with hx | hx
        · exact absurd hx (by simp [h1])
        · exact absurd hx (by simp [h2])
    have hfs' : fs'.isDir d = fs.isDir d := by
      have hout := stageLoop_isDir_at env h1 h2 hd
        env.items 0 (fs.mkdirs (tempDirOf o env)) []
      rw [hsl] at hout
      simp only [StageRes.resFs] at hout
      rw [hout]
      exact isDir_mkdirs_stable fs hdt
    simp only []
    split
    · rw [deleteRec_isDir_outside _ htd]
      exact hfs'
    · exact hfs'
  · rw [hru]

/-- Witness for C2: an archive whose second entry is a regular file with
declared path `../evil`. -/
theorem unsafe_file_entry_aborts_witness :
    isPathAllowed ["/data"] "/data/out" = true
    ∧ (([⟨false, some "ok.txt", true, some 5, false⟩,
          ⟨false, some "../evil", true, some 5, false⟩] : List Item).any
        (unsafeItem (tempDirOf "/data/out"
          ⟨true, true, true,
            [⟨false, some "ok.txt", true, some 5, false⟩,
              ⟨false, some "../evil", true, some 5, false⟩],
            fun _ => true, "tmp1", ⟨true, true, true, "b"⟩⟩)) = true)
    ∧ ((∃ p, (unarchive ["/data"] "/arc.zip" "/data/out"
          ⟨true, true, true,
            [⟨false, some "ok.txt", true, some 5, false⟩,
              ⟨false, some "../evil", true, some 5, false⟩],
            fun _ => true, "tmp1", ⟨true, true, true, "b"⟩⟩
          false ⟨[["data"]], []⟩).1 = .entryInvalid p
          ∧ isSafeEntryPath p (tempDirOf "/data/out"
              ⟨true, true, true,
                [⟨false, some "ok.txt", true, some 5, false⟩,
                  ⟨false, some "../evil", true, some 5, false⟩],
                fun _ => true, "tmp1", ⟨true, true, true, "b"⟩⟩) = none)
        ∧ (∀ q : Path, (tempDirOf "/data/out"
              ⟨true, true, true,
                [⟨false, some "ok.txt", true, some 5, false⟩,
                  ⟨false, some "../evil", true, some 5, false⟩],
                fun _ => true, "tmp1",
                ⟨true, true, true, "b"⟩⟩).isPrefixOf q = false →
            (unarchive ["/data"] "/arc.zip" "/data/out"
              ⟨true, true, true,
                [⟨false, some "ok.txt", true, some 5, false⟩,
                  ⟨false, some "../evil", true, some 5, false⟩],
                fun _ => true, "tmp1", ⟨true, true, true, "b"⟩⟩
              false ⟨[["data"]], []⟩).2.1.fileSize q
              = Fs.fileSize ⟨[["data"]], []⟩ q)
        ∧ (∀ d : Path, (pathSegs "/data/out").isPrefixOf d = true →
            (unarchive ["/data"] "/arc.zip" "/data/out"
              ⟨true, true, true,
                [⟨false, some "ok.txt", true, some 5, false⟩,
                  ⟨false, some "../evil", true, some 5, false⟩],
                fun _ => true, "tmp1", ⟨true, true, true, "b"⟩⟩
              false ⟨[["data"]], []⟩).2.1.isDir d
              = Fs.isDir ⟨[["data"]], []⟩ d)
        ∧ (unarchive ["/data"] "/arc.zip" "/data/out"
            ⟨true, true, true,
              [⟨false, some "ok.txt", true, some 5, false⟩,
                ⟨false, some "../evil", true, some 5, false⟩],
              fun _ => true, "tmp1", ⟨true, true, true, "b"⟩⟩
            false ⟨[["data"]], []⟩).2.2 = false) :=
  ⟨by decide, by decide,
    unsafe_file_entry_aborts ["/data"] "/arc.zip" "/data/out"
      ⟨true, true, true,
        [⟨false, some "ok.txt", true, some 5, false⟩,
          ⟨false, some "../evil", true, some 5, false⟩],
        fun _ => true, "tmp1", ⟨true, true, true, "b"⟩⟩
      ⟨[["data"]], []⟩ (by decide) rfl rfl rfl (fun _ => rfl)
      (by decide) (by decide) (by decide)⟩

/-- C8 (amended).  During staging a single tolerated entry never stops the
loop: an entry whose extraction result is not OK but which materialized
`n ≠ 0` bytes is omitted from the collected list and the loop continues —
but its partial file *remains* (only zero-byte files are cleaned up); an
entry materializing a zero-byte file is omitted, its file deleted, and
the loop continues.  Sanitizer failures abort the run with the
entry-invalid error, and a decoder-open failure aborts the whole request
with the extraction error. -/
theorem entry_failure_tolerance (env : Env) (t : Path) (item : Item)
    (rest : List Item) (i : Nat) (fs : Fs) (acc : List FileInfo)
    (outFile : Path) (n : Nat)
    (hact : env.activeAt (2 + i) = true)
    (hnf : item.isFolder = false) (hth : item.threw = false)
    (hsafe : isSafeEntryPath
      (item.path.getD ("unknown_file_" ++ toString i)) t = some outFile) :
    (item.ok = false → item.written = some n → n ≠ 0 →
      ∃ fsk : Fs, stageLoop env t (item :: rest) i fs acc
          = stageLoop env t rest (i + 1) fsk acc
        ∧ fsk.fileSize outFile = some n)
    ∧ (item.written = some 0 →
      ∃ fsk : Fs, stageLoop env t (item :: rest) i fs acc
          = stageLoop env t rest (i + 1) fsk acc
        ∧ fsk.fileSize outFile = none)
    ∧ (∀ (item2 : Item) (s : String), item2.isFolder = false →
        item2.path = some s → isSafeEntryPath s t = none →
        stageLoop env t (item2 :: rest) i fs acc
          = .aborted (.entryInvalid s) fs)
    ∧ (∀ (roots : List String) (a o : String) (env0 : Env) (fs0 : Fs),
        isPathAllowed roots o = true → env0.archiveExists = true →
        env0.activeAt 0 = true → env0.mkdirsOk = true →
        env0.openOk = false →
        (unarchive roots a o env0 false fs0).1 = .extractionError) := by
  refine ⟨?_, ?_, ?_, ?_⟩
  · intro hok hw hn
    have hne : (n == 0) = false := beq_eq_false_iff_ne.mpr hn
    rw [stageLoop]
    simp only [hact, Bool.not_true, Bool.false_eq_true, if_false, hnf,
      hsafe, hth, hw, hok, writeFile_isFile_self, writeFile_fileSize_self,
      Option.getD_some, hne, Bool.false_and, Bool.and_false, if_false]
    exact ⟨_, rfl, writeFile_fileSize_self _ _ _⟩
  · intro hw
    rw [stageLoop]
    simp only [hact, Bool.not_true, Bool.false_eq_true, if_false, hnf,
      hsafe, hth, hw, writeFile_isFile_self, writeFile_fileSize_self,
      Option.getD_some, beq_self_eq_true, Bool.and_false, Bool.true_and,
      if_true, if_false]
    exact ⟨_, rfl, deleteFile_fileSize_self _ _⟩
  · intro item2 s h2f h2p h2n
    rw [stageLoop]
    simp only [hact, Bool.not_true, Bool.false_eq_true, if_false, h2f,
      h2p, Option.getD_some, h2n]
  · intro roots a o env0 fs0 hP hA h0 hM hO
    unfold unarchive unarchiveBody
    simp [hP, hA, h0, hM, hO]

/-- Witness for C8 at a concrete failed 3-byte entry, a concrete zero-byte
entry, a concrete unsafe entry and a concrete failing decoder open. -/
theorem entry_failure_tolerance_witness :
    ((⟨false, some "a.bin", false, some 3, false⟩ : Item).ok = false →
      (⟨false, some "a.bin", false, some 3, false⟩ : Item).written = some 3 →
      3 ≠ 0 →
      ∃ fsk : Fs,
        stageLoop
            ⟨true, true, true, [], fun _ => true, "tmp1",
              ⟨true, true, true, "b"⟩⟩ ["data", "tmp1"]
            [⟨false, some "a.bin", false, some 3, false⟩] 0
            ⟨[["data"], ["data", "tmp1"]], []⟩ []
          = stageLoop
            ⟨true, true, true, [], fun _ => true, "tmp1",
              ⟨true, true, true, "b"⟩⟩ ["data", "tmp1"] [] 1 fsk []
        ∧ fsk.fileSize ["data", "tmp1", "a.bin"] = some 3)
    ∧ ((⟨false, some "a.bin", false, some 3, false⟩ : Item).written = some 0 →
      ∃ fsk : Fs,
        stageLoop
            ⟨true, true, true, [], fun _ => true, "tmp1",
              ⟨true, true, true, "b"⟩⟩ ["data", "tmp1"]
            [⟨false, some "a.bin", false, some 3, false⟩] 0
            ⟨[["data"], ["data", "tmp1"]], []⟩ []
          = stageLoop
            ⟨true, true, true, [], fun _ => true, "tmp1",
              ⟨true, true, true, "b"⟩⟩ ["data", "tmp1"] [] 1 fsk []
        ∧ fsk.fileSize ["data", "tmp1", "a.bin"] = none)
    ∧ (∀ (item2 : Item) (s : String), item2.isFolder = false →
        item2.path = some s → isSafeEntryPath s ["data", "tmp1"] = none →
        stageLoop
            ⟨true, true, true, [], fun _ => true, "tmp1",
              ⟨true, true, true, "b"⟩⟩ ["data", "tmp1"]
            [item2] 0 ⟨[["data"], ["data", "tmp1"]], []⟩ []
          = .aborted (.entryInvalid s) ⟨[["data"], ["data", "tmp1"]], []⟩)
    ∧ (∀ (roots : List String) (a o : String) (env0 : Env) (fs0 : Fs),
        isPathAllowed roots o = true → env0.archiveExists = true →
        env0.activeAt 0 = true → env0.mkdirsOk = true →
        env0.openOk = false →
        (unarchive roots a o env0 false fs0).1 = .extractionError) :=
  entry_failure_tolerance
    ⟨true, true, true, [], fun _ => true, "tmp1", ⟨true, true, true, "b"⟩⟩
    ["data", "tmp1"] ⟨false, some "a.bin", false, some 3, false⟩ [] 0
    ⟨[["data"], ["data", "tmp1"]], []⟩ [] ["data", "tmp1", "a.bin"] 3
    rfl rfl rfl (by decide)

/-- C6 (confirmed).  For every successful request, each returned
`FileInfo` describes a regular file under the committed root: its `path`
is the committed root followed by a nonempty relative segment list `rel`,
its `relativePath` is `rel` joined with separators (nested directories
preserved), its `name` is the last segment, and `(path, size)` is a file
of the *final* filesystem, i.e. the size is the byte length read from the
filesystem after the commit. -/
theorem success_fileinfo_fields (roots : List String) (a o : String)
    (env : Env) (fs : Fs) (files : List FileInfo)
    (h1 : (pathSegs o).isPrefixOf (tempDirOf o env) = false)
    (hsucc : (unarchive roots a o env false fs).1 = .success files) :
    ∀ f ∈ files, ∃ rel : Path, rel ≠ []
      ∧ f.path = pathSegs o ++ rel
      ∧ f.relativePath = joinSegs rel
      ∧ f.name = rel.getLastD ""
      ∧ (f.path, f.size) ∈ (unarchive roots a o env false fs).2.1.files := by
  obtain ⟨fs4, hfiles, hfinal, base, hbase⟩ := unarchive_success_inv hsucc
  have hgone : fs4.existsPath (tempDirOf o env) = false := by
    rw [hbase]
    exact rename_existsPath_src base h1
  rw [hgone] at hfinal
  simp only [Bool.false_eq_true, if_false] at hfinal
  intro f hf
  rw [hfiles] at hf
  simp only [enumFiles, List.mem_map, List.mem_filter] at hf
  obtain ⟨e, ⟨hmem, hcond⟩, rfl⟩ := hf
  simp only [Bool.and_eq_true, decide_eq_true_eq] at hcond
  obtain ⟨tail, htail⟩ := bpre_iff.mp hcond.1
  have hlen : e.1.length = (pathSegs o).length + tail.length := by
    rw [← htail]
    simp
  have hne : tail ≠ [] := by
    intro hnil
    subst hnil
    simp only [List.length_nil, Nat.add_zero] at hlen
    omega
  have hdrop : e.1.drop (pathSegs o).length = tail := by
    rw [← htail, List.drop_left]
  refine ⟨tail, hne, ?_, ?_, ?_, ?_⟩
  · simp only [mkInfo]
    exact htail.symm
  · simp only [mkInfo]
    rw [hdrop]
  · simp only [mkInfo]
    rw [← htail]
    exact getLastD_append_right hne
  · rw [hfinal]
    simp only [mkInfo]
    exact hmem

/-- Witness for C6 on the claim's example archive: `a.txt` of 5 bytes and
`dir/b.txt` of 10 bytes yield exactly two FileInfo entries with
relativePath values `dir/b.txt` and `a.txt` and sizes 10 and 5, both
present in the final filesystem. -/
theorem success_fileinfo_fields_witness :
    (unarchive ["/data"] "/arc.zip" "/data/out"
        ⟨true, true, true,
          [⟨false, some "a.txt", true, some 5, false⟩,
            ⟨false, some "dir/b.txt", true, some 10, false⟩],
          fun _ => true, "tmp1", ⟨true, true, true, "b"⟩⟩
        false ⟨[["data"]], []⟩).1
      = .success
          [⟨["data", "out", "dir", "b.txt"], "b.txt", "dir/b.txt", 10⟩,
            ⟨["data", "out", "a.txt"], "a.txt", "a.txt", 5⟩]
    ∧ ∀ f ∈ [(⟨["data", "out", "dir", "b.txt"], "b.txt", "dir/b.txt", 10⟩ :
          FileInfo),
        ⟨["data", "out", "a.txt"], "a.txt", "a.txt", 5⟩],
        ∃ rel : Path, rel ≠ []
          ∧ f.path = pathSegs "/data/out" ++ rel
          ∧ f.relativePath = joinSegs rel
          ∧ f.name = rel.getLastD ""
          ∧ (f.path, f.size) ∈ (unarchive ["/data"] "/arc.zip" "/data/out"
              ⟨true, true, true,
                [⟨false, some "a.txt", true, some 5, false⟩,
                  ⟨false, some "dir/b.txt", true, some 10, false⟩],
                fun _ => true, "tmp1", ⟨true, true, true, "b"⟩⟩
              false ⟨[["data"]], []⟩).2.1.files :=
  ⟨by decide,
    success_fileinfo_fields ["/data"] "/arc.zip" "/data/out"
      ⟨true, true, true,
        [⟨false, some "a.txt", true, some 5, false⟩,
          ⟨false, some "dir/b.txt", true, some 10, false⟩],
        fun _ => true, "tmp1", ⟨true, true, true, "b"⟩⟩
      ⟨[["data"]], []⟩
      [⟨["data", "out", "dir", "b.txt"], "b.txt", "dir/b.txt", 10⟩,
        ⟨["data", "out", "a.txt"], "a.txt", "a.txt", 5⟩]
      (by decide) (by decide)⟩

/-- C10 (confirmed).  A non-folder entry with an absent declared path is
given the synthesized name `unknown_file_<index>` (the index counting
every archive item, folders included), which passes sanitization and
resolves directly under the staging root; a non-empty such entry is
collected under that name and, as the closing concrete run shows, a
null-path item at position 1 (after a folder) appears in the final result
as `unknown_file_1`. -/
theorem null_path_synthesized_name (env : Env) (t : Path) (item : Item)
    (rest : List Item) (i : Nat) (fs : Fs) (acc : List FileInfo) (n : Nat)
    (hact : env.activeAt (2 + i) = true)
    (hnf : item.isFolder = false) (hpath : item.path = none)
    (hok : item.ok = true) (hw : item.written = some n) (hn : n ≠ 0)
    (hth : item.threw = false)
    (hclean : cleanSegs t = true)
    (hsplit : splitSegs ("unknown_file_" ++ toString i)
      = ["unknown_file_" ++ toString i])
    (h0 : (("unknown_file_" ++ toString i) == "") = false)
    (h1 : (("unknown_file_" ++ toString i) == ".") = false)
    (h2 : (("unknown_file_" ++ toString i) == "..") = false) :
    isSafeEntryPath ("unknown_file_" ++ toString i) t
      = some (t ++ ["unknown_file_" ++ toString i])
    ∧ (∃ fsk : Fs,
        stageLoop env t (item :: rest) i fs acc
          = stageLoop env t rest (i + 1) fsk
              (acc ++ [⟨t ++ ["unknown_file_" ++ toString i],
                "unknown_file_" ++ toString i,
                "unknown_file_" ++ toString i, n⟩])
        ∧ fsk.fileSize (t ++ ["unknown_file_" ++ toString i]) = some n)
    ∧ (unarchive ["/data"] "/arc.zip" "/data/out"
        ⟨true, true, true,
          [⟨true, some "sub", true, none, false⟩,
            ⟨false, none, true, some 4, false⟩],
          fun _ => true, "tmp1", ⟨true, true, true, "b"⟩⟩
        false ⟨[["data"]], []⟩).1
      = .success [⟨["data", "out", "unknown_file_1"], "unknown_file_1",
          "unknown_file_1", 4⟩] := by
  have hsafe := isSafe_unknown (t := t) hclean hsplit h0 h1 h2
  refine ⟨hsafe, ?_, by decide⟩
  have hne : (n == 0) = false := beq_eq_false_iff_ne.mpr hn
  have hnm1 : (t ++ ["unknown_file_" ++ toString i]).getLastD ""
      = "unknown_file_" ++ toString i := by
    rw [getLastD_append_right (by simp)]
    rfl
  have hnm2 : joinSegs
      ((t ++ ["unknown_file_" ++ toString i]).drop t.length)
        = "unknown_file_" ++ toString i := by
    rw [List.drop_left]
    simp [joinSegs]
  have hinfo : mkInfo t (t ++ ["unknown_file_" ++ toString i]) n
      = ⟨t ++ ["unknown_file_" ++ toString i],
          "unknown_file_" ++ toString i,
          "unknown_file_" ++ toString i, n⟩ := by
    simp [mkInfo, hnm1, hnm2, joinSegs_one]
  rw [stageLoop]
  simp only [hact, Bool.not_true, Bool.false_eq_true, if_false, hnf,
    hpath, Option.getD_none, hsafe, hth, hw, hok,
    writeFile_isFile_self, writeFile_fileSize_self, Option.getD_some,
    hne, Bool.not_false, Bool.true_and, Bool.and_true, Bool.and_self,
    if_true, hinfo]
  exact ⟨_, rfl, writeFile_fileSize_self _ _ _⟩

/-- Witness for C10 at index 1 behind a folder item. -/
theorem null_path_synthesized_name_witness :
    isSafeEntryPath "unknown_file_1" ["data", "tmp1"]
      = some ["data", "tmp1", "unknown_file_1"]
    ∧ (∃ fsk : Fs,
        stageLoop
            ⟨true, true, true, [], fun _ => true, "tmp1",
              ⟨true, true, true, "b"⟩⟩ ["data", "tmp1"]
            [⟨false, none, true, some 4, false⟩] 1
            ⟨[["data"], ["data", "tmp1"]], []⟩ []
          = stageLoop
              ⟨true, true, true, [], fun _ => true, "tmp1",
                ⟨true, true, true, "b"⟩⟩ ["data", "tmp1"] [] 2 fsk
              ([] ++ [⟨["data", "tmp1", "unknown_file_1"],
                "unknown_file_1", "unknown_file_1", 4⟩])
        ∧ fsk.fileSize ["data", "tmp1", "unknown_file_1"] = some 4)
    ∧ (unarchive ["/data"] "/arc.zip" "/data/out"
        ⟨true, true, true,
          [⟨true, some "sub", true, none, false⟩,
            ⟨false, none, true, some 4, false⟩],
          fun _ => true, "tmp1", ⟨true, true, true, "b"⟩⟩
        false ⟨[["data"]], []⟩).1
      = .success [⟨["data", "out", "unknown_file_1"], "unknown_file_1",
          "unknown_file_1", 4⟩] :=
  null_path_synthesized_name
    ⟨true, true, true, [], fun _ => true, "tmp1", ⟨true, true, true, "b"⟩⟩
    ["data", "tmp1"] ⟨false, none, true, some 4, false⟩ [] 1
    ⟨[["data"], ["data", "tmp1"]], []⟩ [] 4
    rfl rfl rfl rfl rfl (by decide) rfl (by decide) (by decide)
    (by decide) (by decide) (by decide)

end Unarchive
